import Mathlib

/-!
# Verification of the booking scraper pipeline (booking_full_api.py)

Shallow embedding of the scraper's pure logic: URL canonicalization and
hashing, static field extraction, calendar price extraction (with the
browser modelled as an environment of fallible steps), the persistence
adapter and the request handlers.  External library calls (HTTP client,
browser driver, database client, URL resolver) are modelled as explicit
inputs; the Python standard library's URL splitting/unsplitting, which
`canonicalize_url` delegates to, is embedded directly.
-/

namespace Booking

/-! ## Characters and small string utilities -/

/-- Characters allowed after the first character of a URL scheme
(CPython's scheme_chars: ASCII letters, digits, plus, minus, dot). -/
def schemeChar (c : Char) : Bool :=
  c.isAlpha || c.isDigit || c = '+' || c = '-' || c = '.'

/-- Is the character a slash? -/
def isSlash (c : Char) : Bool := c = '/'

/-- Python str.rstrip with a slash as its character set: remove all
trailing slashes.  Used by canonicalize_url. -/
def rstripSlash (l : List Char) : List Char :=
  (l.reverse.dropWhile isSlash).reverse

/-! ## urllib.parse.urlsplit / urlunsplit

`canonicalize_url` calls the standard library's urlsplit and urlunsplit.
The embedding follows CPython's algorithm: split the fragment at the first
number sign, the scheme at the first colon when the prefix is a valid
scheme, the network location after a double slash up to the next slash,
question mark or number sign, and the query at the first question mark.
Control character stripping and IPv6 bracket validation are omitted
(irrelevant to the claims; malformed URLs pass through best effort). -/

/-- Split a character list at the first occurrence of a separator:
returns the part before it and, when present, the part after it. -/
def breakAtChar (sep : Char) : List Char → List Char × Option (List Char)
  | [] => ([], none)
  | c :: cs =>
    if c = sep then ([], some cs)
    else
      let r := breakAtChar sep cs
      (c :: r.1, r.2)

/-- Result of splitting a URL, mirroring urllib's SplitResult. -/
structure SplitResult where
  scheme : List Char
  netloc : List Char
  path : List Char
  query : List Char
  fragment : List Char
  deriving Repr, DecidableEq

/-- Split off the scheme at the first colon when the part before it is a
valid scheme (nonempty, ASCII letter first, scheme characters after);
the scheme is lowercased.  Returns (scheme, rest). -/
def splitScheme (l : List Char) : List Char × List Char :=
  match breakAtChar ':' l with
  | (_, none) => ([], l)
  | (before, some after) =>
    match before with
    | [] => ([], l)
    | c0 :: rest =>
      if c0.isAlpha && rest.all schemeChar then
        ((c0 :: rest).map Char.toLower, after)
      else ([], l)

/-- urllib's _splitnetloc: the network location runs up to the first
slash, question mark or number sign. -/
def splitNetloc (l : List Char) : List Char × List Char :=
  (l.takeWhile (fun c => !(c = '/' || c = '?' || c = '#')),
   l.dropWhile (fun c => !(c = '/' || c = '?' || c = '#')))

/-- Embedding of urllib.parse.urlsplit on the character list of the URL. -/
def urlsplitL (l : List Char) : SplitResult :=
  let (scheme, u1) := splitScheme l
  let (netloc, u2) :=
    match u1 with
    | '/' :: '/' :: rest => splitNetloc rest
    | _ => ([], u1)
  let (u3, frag) := breakAtChar '#' u2
  let fragment := frag.getD []
  let (path, q) := breakAtChar '?' u3
  let query := q.getD []
  { scheme := scheme, netloc := netloc, path := path,
    query := query, fragment := fragment }

/-- urlsplit on strings. -/
def urlsplit (s : String) : SplitResult := urlsplitL s.data

/-- urlunsplit's leading-slash fix: a nonempty path not starting with a
slash gets one when a network location part is emitted. -/
def addRoot (path : List Char) : List Char :=
  if path ≠ [] ∧ path.head? ≠ some '/' then '/' :: path else path

/-- urlunsplit's url assembly before the scheme is attached: emit the
double slash and the network location when the netloc is nonempty or
the path itself starts with a double slash. -/
def urlInner (netloc path : List Char) : List Char :=
  if netloc ≠ [] ∨ path.take 2 = ['/', '/'] then
    '/' :: '/' :: (netloc ++ addRoot path)
  else path

/-- urlunsplit's final step: attach a nonempty scheme with a colon. -/
def wrapScheme (scheme url : List Char) : List Char :=
  if scheme ≠ [] then scheme ++ ':' :: url else url

/-- Embedding of urllib.parse.urlunsplit applied with empty query and
empty fragment, exactly as canonicalize_url calls it. -/
def urlunsplitNoQF (scheme netloc path : List Char) : List Char :=
  wrapScheme scheme (urlInner netloc path)

/-- canonicalize_url: split the URL, rebuild it without query and
fragment, and strip trailing slashes (Python rstrip with a slash). -/
def canonicalize_url (raw_url : String) : String :=
  let parts := urlsplit raw_url
  ⟨rstripSlash (urlunsplitNoQF parts.scheme parts.netloc parts.path)⟩

/-- Two URL strings differ only in query string, fragment, or trailing
slashes of the path: their split forms agree on scheme and network
location, and on the path once trailing slashes are stripped. -/
def differOnlyInQueryFragmentOrSlash (u1 u2 : String) : Prop :=
  (urlsplit u1).scheme = (urlsplit u2).scheme ∧
  (urlsplit u1).netloc = (urlsplit u2).netloc ∧
  rstripSlash (urlsplit u1).path = rstripSlash (urlsplit u2).path

instance (u1 u2 : String) : Decidable (differOnlyInQueryFragmentOrSlash u1 u2) := by
  unfold differOnlyInQueryFragmentOrSlash; infer_instance

/-! ## MD5 (hashlib.md5 over the UTF-8 encoding)

`url_md5` returns hashlib.md5(text.encode('utf-8')).hexdigest().  The
embedding computes MD5 (RFC 1321) over the UTF-8 bytes of the string,
with 32-bit words represented as naturals reduced modulo 2^32. -/

/-- UTF-8 encoding of one character as a list of bytes. -/
def utf8Char (c : Char) : List Nat :=
  let n := c.toNat
  if n < 0x80 then [n]
  else if n < 0x800 then
    [0xC0 + n / 64, 0x80 + n % 64]
  else if n < 0x10000 then
    [0xE0 + n / 4096, 0x80 + n / 64 % 64, 0x80 + n % 64]
  else
    [0xF0 + n / 262144, 0x80 + n / 4096 % 64, 0x80 + n / 64 % 64, 0x80 + n % 64]

/-- UTF-8 encoding of a string as a byte list (Python str.encode). -/
def utf8Encode (s : String) : List Nat := s.data.flatMap utf8Char

/-- Left rotation of a 32-bit word held in a natural. -/
def rotl32 (x s : Nat) : Nat :=
  ((x <<< s) ||| (x >>> (32 - s))) % 2 ^ 32

/-- The 64 MD5 sine-derived constants. -/
def md5K : List Nat :=
  [0xd76aa478, 0xe8c7b756, 0x242070db, 0xc1bdceee,
   0xf57c0faf, 0x4787c62a, 0xa8304613, 0xfd469501,
   0x698098d8, 0x8b44f7af, 0xffff5bb1, 0x895cd7be,
   0x6b901122, 0xfd987193, 0xa679438e, 0x49b40821,
   0xf61e2562, 0xc040b340, 0x265e5a51, 0xe9b6c7aa,
   0xd62f105d, 0x02441453, 0xd8a1e681, 0xe7d3fbc8,
   0x21e1cde6, 0xc33707d6, 0xf4d50d87, 0x455a14ed,
   0xa9e3e905, 0xfcefa3f8, 0x676f02d9, 0x8d2a4c8a,
   0xfffa3942, 0x8771f681, 0x6d9d6122, 0xfde5380c,
   0xa4beea44, 0x4bdecfa9, 0xf6bb4b60, 0xbebfbc70,
   0x289b7ec6, 0xeaa127fa, 0xd4ef3085, 0x04881d05,
   0xd9d4d039, 0xe6db99e5, 0x1fa27cf8, 0xc4ac5665,
   0xf4292244, 0x432aff97, 0xab9423a7, 0xfc93a039,
   0x655b59c3, 0x8f0ccc92, 0xffeff47d, 0x85845dd1,
   0x6fa87e4f, 0xfe2ce6e0, 0xa3014314, 0x4e0811a1,
   0xf7537e82, 0xbd3af235, 0x2ad7d2bb, 0xeb86d391]

/-- The 64 MD5 per-round left-rotation amounts. -/
def md5S : List Nat :=
  [7, 12, 17, 22, 7, 12, 17, 22, 7, 12, 17, 22, 7, 12, 17, 22,
   5, 9, 14, 20, 5, 9, 14, 20, 5, 9, 14, 20, 5, 9, 14, 20,
   4, 11, 16, 23, 4, 11, 16, 23, 4, 11, 16, 23, 4, 11, 16, 23,
   6, 10, 15, 21, 6, 10, 15, 21, 6, 10, 15, 21, 6, 10, 15, 21]

/-- One MD5 round: mixes state (a, b, c, d) with message word index g. -/
def md5Round (m : List Nat) (st : Nat × Nat × Nat × Nat) (i : Nat) :
    Nat × Nat × Nat × Nat :=
  let (a, b, c, d) := st
  let f :=
    if i < 16 then (b &&& c) ||| ((b ^^^ 0xffffffff) &&& d)
    else if i < 32 then (d &&& b) ||| ((d ^^^ 0xffffffff) &&& c)
    else if i < 48 then b ^^^ c ^^^ d
    else c ^^^ (b ||| (d ^^^ 0xffffffff))
  let g :=
    if i < 16 then i
    else if i < 32 then (5 * i + 1) % 16
    else if i < 48 then (3 * i + 5) % 16
    else (7 * i) % 16
  let f := (f + a + md5K.getD i 0 + m.getD g 0) % 2 ^ 32
  (d, (b + rotl32 f (md5S.getD i 0)) % 2 ^ 32, b, c)

/-- Decode a 64-byte block into 16 little-endian 32-bit words. -/
def md5Words : List Nat → List Nat
  | b0 :: b1 :: b2 :: b3 :: rest =>
    (b0 + 256 * b1 + 65536 * b2 + 16777216 * b3) :: md5Words rest
  | _ => []

/-- Process one 64-byte block, updating the four-word state. -/
def md5Block (st : Nat × Nat × Nat × Nat) (block : List Nat) :
    Nat × Nat × Nat × Nat :=
  let m := md5Words block
  let (a, b, c, d) := (List.range 64).foldl (md5Round m) st
  let (a0, b0, c0, d0) := st
  ((a0 + a) % 2 ^ 32, (b0 + b) % 2 ^ 32, (c0 + c) % 2 ^ 32, (d0 + d) % 2 ^ 32)

/-- Fuel-indexed splitting into 64-byte chunks; each step consumes at
least one list element, so the list length is enough fuel. -/
def chunksAux : Nat → List Nat → List (List Nat)
  | 0, _ => []
  | _, [] => []
  | fuel + 1, b :: l => (b :: l).take 64 :: chunksAux fuel ((b :: l).drop 64)

/-- Split a byte list into 64-byte chunks (length is a multiple of 64
after padding). -/
def chunks64 (l : List Nat) : List (List Nat) := chunksAux l.length l

/-- MD5 padding: a 0x80 byte, zeros to 56 mod 64, then the bit length in
eight little-endian bytes. -/
def md5Pad (msg : List Nat) : List Nat :=
  let len := msg.length
  let padLen := (55 + 64 - len % 64) % 64 + 1
  let bitLen := 8 * len
  msg ++ 0x80 :: List.replicate (padLen - 1) 0 ++
    (List.range 8).map (fun i => bitLen / 256 ^ i % 256)

/-- Lowercase hexadecimal digit for a value below sixteen: an offset
from the zero digit, or from the letter a for values of ten and up. -/
def hexDigit (n : Nat) : Char :=
  if n < 10 then Char.ofNat ('0'.toNat + n) else Char.ofNat ('a'.toNat + (n - 10))

/-- Little-endian hex rendering of one 32-bit word (eight hex digits). -/
def hexWordLE (x : Nat) : List Char :=
  (List.range 4).flatMap (fun i =>
    let byte := x / 256 ^ i % 256
    [hexDigit (byte / 16), hexDigit (byte % 16)])

/-- MD5 digest of a byte list, rendered as the 32-character hex string. -/
def md5Hex (msg : List Nat) : String :=
  let st := (chunks64 (md5Pad msg)).foldl md5Block
    (0x67452301, 0xefcdab89, 0x98badcfe, 0x10325476)
  let (a, b, c, d) := st
  ⟨hexWordLE a ++ hexWordLE b ++ hexWordLE c ++ hexWordLE d⟩

/-- url_md5: hashlib.md5 hex digest of the UTF-8 encoding of the text. -/
def url_md5 (text : String) : String := md5Hex (utf8Encode text)

/-! ## Static field extractor (scrape_images_and_details)

The parsed document is modelled by the data the extractor reads from it:
the src attributes of all img tags in document order, the text of the
description paragraph when that element is present, and the texts of the
facility list items.  The URL resolver (requests.compat.urljoin) is an
external library function, passed in explicitly. -/

/-- Does the pattern occur at the start of the list? -/
def leadsWith : List Char → List Char → Bool
  | [], _ => true
  | _ :: _, [] => false
  | p :: ps, c :: cs => p = c && leadsWith ps cs

/-- Python's substring membership test (pat in s) on character lists. -/
def containsSeq (pat : List Char) : List Char → Bool
  | [] => pat.isEmpty
  | c :: cs => leadsWith pat (c :: cs) || containsSeq pat cs

/-- The fixed marker an image src must contain to qualify. -/
def hotelImageMarker : List Char := "/xdata/images/hotel/".data

/-- Parsed-document model: what scrape_images_and_details reads. -/
structure Doc where
  imgSrcs : List String
  descText : Option String
  facilityTexts : List String

/-- The image-collection loop: keep srcs containing the marker, resolve
each against the base URL, and append unless already collected. -/
def collectImages (resolve : String → String → String) (base : String) :
    List String → List String → List String
  | [], acc => acc
  | src :: rest, acc =>
    if containsSeq hotelImageMarker src.data then
      let full := resolve base src
      if acc.contains full then collectImages resolve base rest acc
      else collectImages resolve base rest (acc ++ [full])
    else collectImages resolve base rest acc

/-- scrape_images_and_details: image URLs, description (empty when the
element is absent), facility texts (each stripped, modelled by trim). -/
def scrape_images_and_details (resolve : String → String → String)
    (url : String) (doc : Doc) : List String × String × List String :=
  let image_urls := collectImages resolve url doc.imgSrcs []
  let description := match doc.descText with
    | some t => t.trim
    | none => ""
  let main_facilities := doc.facilityTexts.map String.trim
  (image_urls, description, main_facilities)

/-! ## Calendar price extractor (scrape_calendar_prices)

The browser session is modelled by an environment of fallible steps: the
initialization (driver creation, navigation, date-picker click) may
raise; each month's calendar lookup may raise and otherwise yields the
date cells, each with its data-date attribute and, when the price
element is present, the price text; the next-month click either
succeeds or fails (its failure only breaks the month loop).  The outer
try/except of the Python function is the Except layer. -/

/-- One date cell: the data-date attribute and the price element's text
(none when find_element raises because the element is missing). -/
structure Cell where
  date : String
  priceText : Option String
  deriving Repr, DecidableEq

/-- The accumulated prices dictionary: insertion-ordered key-value
pairs, as a Python dict. -/
abbrev PriceDict := List (String × Nat)

/-- Python dict assignment: overwrite in place when the key exists,
otherwise append. -/
def dictInsert (d : PriceDict) (k : String) (v : Nat) : PriceDict :=
  if d.any (fun p => p.1 = k) then
    d.map (fun p => if p.1 = k then (k, v) else p)
  else d ++ [(k, v)]

/-- The digits kept by re.sub removing every non-digit character. -/
def keepDigits (t : String) : List Char := t.data.filter Char.isDigit

/-- Value of a nonempty digit string (Python int). -/
def digitsToNat (ds : List Char) : Nat :=
  ds.foldl (fun n c => 10 * n + (c.toNat - 48)) 0

/-- Processing of one date cell.  A missing price element raises inside
the per-cell try and the cell is skipped; an empty price text makes
price None; a nonempty text with no digits makes int raise (skipped);
and the truthiness guard additionally drops a parsed value of zero. -/
def processCell (cell : Cell) : Option Nat :=
  match cell.priceText with
  | none => none
  | some t =>
    if t = "" then none
    else
      let ds := keepDigits t
      if ds.isEmpty then none
      else
        let price := digitsToNat ds
        if price ≠ 0 then some price else none

/-- The per-cell accumulation step of the month scan. -/
def scanStep (d : PriceDict) (cell : Cell) : PriceDict :=
  match processCell cell with
  | some price => dictInsert d cell.date price
  | none => d

/-- Scan of one calendar page: fold the cell step over the cells. -/
def scanCells (cells : List Cell) (d : PriceDict) : PriceDict :=
  cells.foldl scanStep d

/-- Browser environment: the fallible steps of the Selenium sequence. -/
structure CalendarEnv where
  init : Except String Unit
  getCalendar : Nat → Except String (List Cell)
  advance : Nat → Bool

/-- The month loop: for each remaining month, wait for the calendar (a
failure raises), scan its cells, then try to click the next-month
control — a failure there breaks the loop. -/
def runMonths (env : CalendarEnv) : Nat → Nat → PriceDict →
    Except String PriceDict
  | _, 0, d => .ok d
  | idx, fuel + 1, d =>
    match env.getCalendar idx with
    | .error e => .error e
    | .ok cells =>
      let d := scanCells cells d
      if env.advance idx then runMonths env (idx + 1) fuel d
      else .ok d

/-- Python's lexicographic string comparison (code points), as used by
sorted on the date strings. -/
def charListLe : List Char → List Char → Bool
  | [], _ => true
  | _ :: _, [] => false
  | a :: as, b :: bs =>
    if a = b then charListLe as bs else decide (a.toNat < b.toNat)

/-- Comparison used by Python sorted on the dict items: keys are
distinct, so the tuple order is the string order of the dates. -/
def keyLe (a b : String × Nat) : Prop := charListLe a.1.data b.1.data = true

instance : DecidableRel keyLe := fun a b => by
  unfold keyLe; infer_instance

/-- The body of the try block: init, month loop (MAX_CAL_MONTHS
defaults to 12), then the items sorted by key. -/
def runSequence (env : CalendarEnv) : Except String PriceDict :=
  match env.init with
  | .error e => .error e
  | .ok _ =>
    match runMonths env 0 12 [] with
    | .error e => .error e
    | .ok d => .ok (List.insertionSort keyLe d)

/-- scrape_calendar_prices: the outer except turns any raise from the
sequence into an empty dict. -/
def scrape_calendar_prices (env : CalendarEnv) : PriceDict :=
  match runSequence env with
  | .ok d => d
  | .error _ => []

/-! ## Persistence adapter and request handlers -/

/-- Outcome of a Python handler body: a value, an HTTPException, or any
other exception. -/
inductive PyResult (α : Type) where
  | ok (a : α)
  | http (status : Nat) (detail : String)
  | exn (msg : String)
  deriving Repr, DecidableEq

/-- save_to_supabase: the upsert response's data attribute is modelled
as none (absent) or the row list.  Nonempty data returns the first row;
otherwise the ValueError raised in the try is caught and converted,
like any other exception, into an HTTP 500. -/
def save_to_supabase {α : Type} (respData : Option (List α)) : PyResult α :=
  match respData with
  | some (row :: _) => .ok row
  | _ => .http 500 "Erro ao salvar no banco: Resposta vazia do Supabase"

/-- Success envelope of the get_ad handler. -/
structure AdEnvelope (α : Type) where
  status : String
  data : α
  deriving Repr, DecidableEq

/-- The try block of get_ad: a raising store call propagates as an
exception; an empty result raises HTTPException 404; otherwise the
success envelope holds the first row. -/
def get_ad_try {α : Type} (store : Except String (List α)) :
    PyResult (AdEnvelope α) :=
  match store with
  | .error e => .exn e
  | .ok [] => .http 404 "Anúncio não encontrado"
  | .ok (row :: _) => .ok { status := "success", data := row }

/-- get_ad: the except clauses re-raise an HTTPException unchanged and
convert any other exception into an HTTP 500. -/
def get_ad {α : Type} (store : Except String (List α)) :
    PyResult (AdEnvelope α) :=
  match get_ad_try store with
  | .exn e => .http 500 ("Erro BD: " ++ e)
  | r => r

/-! ## The scrape handler's pipeline -/

/-- The record assembled by the scrape handler. -/
structure Payload where
  url : String
  url_hash : String
  image_urls : List String
  description : String
  main_facilities : List String
  calendar_prices : PriceDict
  scraped_at : String

/-- Trace of one scrape call: the assembled payload and the URL
arguments handed to the two extractors. -/
structure ScrapeResult where
  payload : Payload
  fetchInput : String
  calendarInput : String

/-- The scrape handler up to persistence: canonicalize and hash the
URL, run both extractors on the url variable, and assemble the record.
The document, resolver and browser environment stand for the outside
world; now stands for datetime.utcnow().isoformat(). -/
def scrape (url : String) (resolve : String → String → String) (doc : Doc)
    (env : CalendarEnv) (now : String) : ScrapeResult :=
  let canonical_url := canonicalize_url url
  let url_hash := url_md5 canonical_url
  let (imgs, desc, facs) := scrape_images_and_details resolve url doc
  let cal_prices := scrape_calendar_prices env
  { payload :=
      { url := canonical_url
        url_hash := url_hash
        image_urls := imgs
        description := desc
        main_facilities := facs
        calendar_prices := cal_prices
        scraped_at := now }
    fetchInput := url
    calendarInput := url }

/-! ## Lemmas: trailing-slash stripping and urlunsplit -/

theorem dropWhile_idem (p : Char → Bool) (l : List Char) :
    (l.dropWhile p).dropWhile p = l.dropWhile p := by
  induction l with
  | nil => rfl
  | cons c cs ih =>
    by_cases h : p c
    · simp [List.dropWhile_cons, h, ih]
    · simp [List.dropWhile_cons, h]

theorem rstripSlash_idem (l : List Char) :
    rstripSlash (rstripSlash l) = rstripSlash l := by
  unfold rstripSlash
  rw [List.reverse_reverse, dropWhile_idem]

theorem rstripSlash_nil_of_all (t : List Char) (h : ∀ c ∈ t, isSlash c) :
    rstripSlash t = [] := by
  unfold rstripSlash
  have : t.reverse.dropWhile isSlash = [] :=
    List.dropWhile_eq_nil_iff.mpr (fun x hx => h x (List.mem_reverse.mp hx))
  rw [this, List.reverse_nil]

theorem rstripSlash_append (x y : List Char) :
    rstripSlash (x ++ y) =
      if rstripSlash y = [] then rstripSlash x else x ++ rstripSlash y := by
  unfold rstripSlash
  rw [List.reverse_append, List.dropWhile_append]
  by_cases h : y.reverse.dropWhile isSlash = []
  · simp [h]
  · have h'' : (y.reverse.dropWhile isSlash).reverse ≠ [] := by
      simpa using h
    simp only [if_neg h'', List.isEmpty_iff, if_neg h, List.reverse_append,
      List.reverse_reverse]

theorem rstripSlash_decomp (p : List Char) :
    ∃ t, p = rstripSlash p ++ t ∧ ∀ c ∈ t, isSlash c := by
  refine ⟨(p.reverse.takeWhile isSlash).reverse, ?_, ?_⟩
  · conv_lhs => rw [← List.reverse_reverse p,
      ← List.takeWhile_append_dropWhile (p := isSlash) (l := p.reverse)]
    rw [List.reverse_append]
    rfl
  · intro c hc
    exact List.mem_takeWhile_imp (List.mem_reverse.mp hc)

theorem dropWhile_head_not (p : Char → Bool) (l : List Char) (c : Char)
    (h : (l.dropWhile p).head? = some c) : p c = false := by
  induction l with
  | nil => simp at h
  | cons a as ih =>
    by_cases ha : p a
    · rw [List.dropWhile_cons, if_pos ha] at h
      exact ih h
    · rw [List.dropWhile_cons, if_neg ha] at h
      simp only [List.head?_cons, Option.some.injEq] at h
      subst h
      exact Bool.eq_false_iff.mpr ha

theorem rstripSlash_getLast (l : List Char) (c : Char)
    (h : (rstripSlash l).getLast? = some c) : isSlash c = false := by
  unfold rstripSlash at h
  rw [List.getLast?_reverse] at h
  exact dropWhile_head_not isSlash l.reverse c h

theorem addRoot_append_slashes (q t : List Char) (ht : ∀ c ∈ t, isSlash c) :
    addRoot (q ++ t) = addRoot q ++ t := by
  cases q with
  | nil =>
    cases t with
    | nil => rfl
    | cons c cs =>
      have hc : c = '/' := by
        have := ht c (List.mem_cons_self c cs)
        simpa [isSlash] using this
      simp [addRoot, hc]
  | cons c cs =>
    by_cases hc : c = '/'
    · simp [addRoot, hc]
    · simp [addRoot, hc]

theorem wrapScheme_rstrip_congr (s u v : List Char)
    (h : rstripSlash u = rstripSlash v) :
    rstripSlash (wrapScheme s u) = rstripSlash (wrapScheme s v) := by
  unfold wrapScheme
  by_cases hs : s = []
  · simp only [hs, ne_eq, not_true_eq_false, if_false]
    exact h
  · simp only [ne_eq, hs, not_false_eq_true, if_true]
    have e1 : s ++ ':' :: u = (s ++ [':']) ++ u := by simp
    have e2 : s ++ ':' :: v = (s ++ [':']) ++ v := by simp
    rw [e1, e2, rstripSlash_append (s ++ [':']) u,
      rstripSlash_append (s ++ [':']) v, h]

theorem urlInner_rstrip_append (n q t : List Char)
    (hq : rstripSlash q = q) (ht : ∀ c ∈ t, isSlash c) :
    rstripSlash (urlInner n (q ++ t)) = rstripSlash (urlInner n q) := by
  have htnil : rstripSlash t = [] := rstripSlash_nil_of_all t ht
  unfold urlInner
  by_cases hn : n = []
  · subst hn
    cases q with
    | nil =>
      rw [List.nil_append,
        if_neg (by simp : ¬(([] : List Char) ≠ [] ∨
          ([] : List Char).take 2 = ['/', '/']))]
      by_cases hcond : t.take 2 = ['/', '/']
      · rw [if_pos (Or.inr hcond)]
        have haddt : addRoot t = t := by
          cases t with
          | nil => rfl
          | cons a as =>
            have ha : a = '/' := by
              simpa [isSlash] using ht a (List.mem_cons_self a as)
            simp [addRoot, ha]
        have hall : rstripSlash ('/' :: '/' :: (([] : List Char) ++ addRoot t))
            = [] := by
          apply rstripSlash_nil_of_all
          intro c hc
          rw [List.nil_append, haddt] at hc
          rcases List.mem_cons.mp hc with rfl | hc
          · rfl
          rcases List.mem_cons.mp hc with rfl | hc
          · rfl
          · exact ht c hc
        rw [hall]
        rfl
      · rw [if_neg (by simpa using hcond), htnil]
        rfl
    | cons c cs =>
      have hcond_iff : (((c :: cs) ++ t).take 2 = ['/', '/']) ↔
          ((c :: cs).take 2 = ['/', '/']) := by
        cases cs with
        | cons c2 cs2 => simp [List.take]
        | nil =>
          have hc : c ≠ '/' := by
            intro hcq
            subst hcq
            have h1 : rstripSlash ['/'] = [] :=
              rstripSlash_nil_of_all ['/'] (by simp [isSlash])
            rw [h1] at hq
            exact (List.cons_ne_nil _ _) hq.symm
          constructor
          · intro hx
            exfalso
            cases t with
            | nil =>
              have hlen := congrArg List.length hx
              simp at hlen
            | cons b bs =>
              rw [List.cons_append, List.nil_append] at hx
              simp [List.take] at hx
              exact hc hx.1
          · intro hx
            exfalso
            have hlen := congrArg List.length hx
            simp at hlen
      by_cases hcond : (c :: cs).take 2 = ['/', '/']
      · rw [if_pos (Or.inr (hcond_iff.mpr hcond)), if_pos (Or.inr hcond),
          addRoot_append_slashes _ t ht]
        have e : '/' :: '/' :: (([] : List Char) ++ (addRoot (c :: cs) ++ t)) =
            ('/' :: '/' :: (([] : List Char) ++ addRoot (c :: cs))) ++ t := by
          simp
        rw [e, rstripSlash_append, if_pos htnil]
      · have hx1 : ¬(([] : List Char) ≠ [] ∨
            ((c :: cs) ++ t).take 2 = ['/', '/']) := by
          rintro (h | h)
          · exact h rfl
          · exact hcond (hcond_iff.mp h)
        have hx2 : ¬(([] : List Char) ≠ [] ∨
            (c :: cs).take 2 = ['/', '/']) := by
          rintro (h | h)
          · exact h rfl
          · exact hcond h
        rw [if_neg hx1, if_neg hx2, rstripSlash_append, if_pos htnil]
  · rw [if_pos (Or.inl hn), if_pos (Or.inl hn),
      addRoot_append_slashes _ t ht]
    have e : '/' :: '/' :: (n ++ (addRoot q ++ t)) =
        ('/' :: '/' :: (n ++ addRoot q)) ++ t := by simp
    rw [e, rstripSlash_append, if_pos htnil]

theorem unsplit_rstrip_congr (s n p1 p2 : List Char)
    (h : rstripSlash p1 = rstripSlash p2) :
    rstripSlash (urlunsplitNoQF s n p1) = rstripSlash (urlunsplitNoQF s n p2) := by
  unfold urlunsplitNoQF
  apply wrapScheme_rstrip_congr
  obtain ⟨t1, hp1, ht1⟩ := rstripSlash_decomp p1
  obtain ⟨t2, hp2, ht2⟩ := rstripSlash_decomp p2
  calc rstripSlash (urlInner n p1)
      = rstripSlash (urlInner n (rstripSlash p1 ++ t1)) := by rw [← hp1]
    _ = rstripSlash (urlInner n (rstripSlash p1)) :=
        urlInner_rstrip_append n _ t1 (rstripSlash_idem p1) ht1
    _ = rstripSlash (urlInner n (rstripSlash p2)) := by rw [h]
    _ = rstripSlash (urlInner n (rstripSlash p2 ++ t2)) :=
        (urlInner_rstrip_append n _ t2 (rstripSlash_idem p2) ht2).symm
    _ = rstripSlash (urlInner n p2) := by rw [← hp2]

theorem canonicalize_url_congr (u1 u2 : String)
    (h : differOnlyInQueryFragmentOrSlash u1 u2) :
    canonicalize_url u1 = canonicalize_url u2 := by
  obtain ⟨hs, hn, hp⟩ := h
  unfold canonicalize_url
  exact congrArg String.mk (by rw [hs, hn]; exact unsplit_rstrip_congr _ _ _ _ hp)

/-! ## Lemmas: lexicographic order, dict keys, calendar loop -/

theorem char_eq_of_toNat (a b : Char) (h : a.toNat = b.toNat) : a = b := by
  apply Char.ext
  exact UInt32.toNat.inj h

theorem charListLe_total : ∀ a b : List Char,
    charListLe a b = true ∨ charListLe b a = true
  | [], _ => Or.inl rfl
  | _ :: _, [] => Or.inr rfl
  | a :: as, b :: bs => by
    by_cases hab : a = b
    · subst hab
      simpa [charListLe] using charListLe_total as bs
    · have hne : a.toNat ≠ b.toNat := fun h => hab (char_eq_of_toNat a b h)
      rcases Nat.lt_or_ge a.toNat b.toNat with h | h
      · left
        simp [charListLe, hab, h]
      · right
        have hba : b ≠ a := fun hba => hab hba.symm
        have hlt : b.toNat < a.toNat := lt_of_le_of_ne h hne.symm
        rw [charListLe, if_neg hba]
        exact decide_eq_true hlt

theorem charListLe_trans : ∀ a b c : List Char,
    charListLe a b = true → charListLe b c = true → charListLe a c = true
  | [], _, _, _, _ => rfl
  | _ :: _, [], _, hab, _ => by simp [charListLe] at hab
  | _ :: _, _ :: _, [], _, hbc => by simp [charListLe] at hbc
  | a :: as, b :: bs, c :: cs, hab, hbc => by
    by_cases h1 : a = b
    · subst h1
      rw [charListLe, if_pos rfl] at hab
      by_cases h2 : a = c
      · subst h2
        rw [charListLe, if_pos rfl] at hbc ⊢
        exact charListLe_trans as bs cs hab hbc
      · rw [charListLe, if_neg h2] at hbc ⊢
        exact hbc
    · rw [charListLe, if_neg h1] at hab
      have hlt1 : a.toNat < b.toNat := of_decide_eq_true hab
      by_cases h2 : b = c
      · subst h2
        by_cases h3 : a = b
        · exact absurd h3 h1
        · rw [charListLe, if_neg h3]
          exact decide_eq_true hlt1
      · rw [charListLe, if_neg h2] at hbc
        have hlt2 : b.toNat < c.toNat := of_decide_eq_true hbc
        have hlt : a.toNat < c.toNat := Nat.lt_trans hlt1 hlt2
        have h3 : a ≠ c := fun h => (h ▸ hlt).false
        rw [charListLe, if_neg h3]
        exact decide_eq_true hlt

instance : IsTotal (String × Nat) keyLe :=
  ⟨fun a b => charListLe_total a.1.data b.1.data⟩

instance : IsTrans (String × Nat) keyLe :=
  ⟨fun a b c => charListLe_trans a.1.data b.1.data c.1.data⟩

theorem dictInsert_keys_nodup (d : PriceDict) (k : String) (v : Nat)
    (h : (d.map Prod.fst).Nodup) : ((dictInsert d k v).map Prod.fst).Nodup := by
  unfold dictInsert
  by_cases hmem : d.any (fun p => p.1 = k) = true
  · rw [if_pos hmem]
    have e : (d.map (fun p => if p.1 = k then (k, v) else p)).map Prod.fst =
        d.map Prod.fst := by
      rw [List.map_map]
      apply List.map_congr_left
      intro p _
      by_cases hp : p.1 = k
      · simp [hp]
      · simp [hp]
    rw [e]
    exact h
  · rw [if_neg hmem, List.map_append]
    refine h.append (List.nodup_singleton k) ?_
    intro a ha hak
    rcases List.mem_map.mp ha with ⟨p, hp, hpa⟩
    rcases List.mem_singleton.mp hak with rfl
    have : d.any (fun p => p.1 = a) = true :=
      List.any_eq_true.mpr ⟨p, hp, by simpa using hpa⟩
    exact hmem (by simpa using this)

theorem scanStep_keys_nodup (d : PriceDict) (cell : Cell)
    (h : (d.map Prod.fst).Nodup) : ((scanStep d cell).map Prod.fst).Nodup := by
  unfold scanStep
  cases processCell cell with
  | none => exact h
  | some price => exact dictInsert_keys_nodup d cell.date price h

theorem scanCells_keys_nodup (cells : List Cell) :
    ∀ d : PriceDict, (d.map Prod.fst).Nodup →
      ((scanCells cells d).map Prod.fst).Nodup := by
  induction cells with
  | nil => intro d h; exact h
  | cons cell rest ih =>
    intro d h
    exact ih (scanStep d cell) (scanStep_keys_nodup d cell h)

theorem runMonths_keys_nodup (env : CalendarEnv) :
    ∀ (fuel idx : Nat) (d d' : PriceDict), (d.map Prod.fst).Nodup →
      runMonths env idx fuel d = .ok d' → (d'.map Prod.fst).Nodup := by
  intro fuel
  induction fuel with
  | zero =>
    intro idx d d' h hrun
    cases hrun
    exact h
  | succ n ih =>
    intro idx d d' h hrun
    rw [runMonths] at hrun
    cases hg : env.getCalendar idx with
    | error e => rw [hg] at hrun; cases hrun
    | ok cells =>
      rw [hg] at hrun
      simp only at hrun
      by_cases hadv : env.advance idx = true
      · rw [if_pos hadv] at hrun
        exact ih (idx + 1) _ d' (scanCells_keys_nodup cells d h) hrun
      · rw [if_neg hadv] at hrun
        cases hrun
        exact scanCells_keys_nodup cells d h

/-! ## Lemmas: image collection refinement -/

/-- First-occurrence de-duplication, appending to an accumulator. -/
def dedupAppend : List String → List String → List String
  | acc, [] => acc
  | acc, x :: xs =>
    if acc.contains x then dedupAppend acc xs
    else dedupAppend (acc ++ [x]) xs

/-- The image list the spec describes: the srcs containing the marker,
in document order, resolved against the base URL, then de-duplicated
keeping first occurrences. -/
def specImageList (resolve : String → String → String) (base : String)
    (srcs : List String) : List String :=
  dedupAppend []
    ((srcs.filter (fun s => containsSeq hotelImageMarker s.data)).map
      (resolve base))

theorem collectImages_eq_dedup (resolve : String → String → String)
    (base : String) :
    ∀ (srcs : List String) (acc : List String),
      collectImages resolve base srcs acc =
        dedupAppend acc
          ((srcs.filter (fun s => containsSeq hotelImageMarker s.data)).map
            (resolve base)) := by
  intro srcs
  induction srcs with
  | nil => intro acc; rfl
  | cons src rest ih =>
    intro acc
    by_cases hm : containsSeq hotelImageMarker src.data = true
    · rw [collectImages, if_pos hm, List.filter_cons_of_pos (by simpa using hm),
        List.map_cons, dedupAppend]
      by_cases hc : acc.contains (resolve base src) = true
      · rw [if_pos hc, if_pos hc, ih]
      · rw [if_neg hc, if_neg hc, ih]
    · rw [collectImages, if_neg hm,
        List.filter_cons_of_neg (by simpa using hm), ih]

theorem dedupAppend_nodup :
    ∀ (l acc : List String), acc.Nodup → (dedupAppend acc l).Nodup := by
  intro l
  induction l with
  | nil => intro acc h; exact h
  | cons x xs ih =>
    intro acc h
    rw [dedupAppend]
    by_cases hc : acc.contains x = true
    · rw [if_pos hc]
      exact ih acc h
    · rw [if_neg hc]
      refine ih (acc ++ [x]) ?_
      refine h.append (List.nodup_singleton x) ?_
      intro a ha hax
      rcases List.mem_singleton.mp hax with rfl
      exact hc (List.elem_iff.mpr ha)

/-! ## Claim theorems -/

/-- C1: for every pair of input URL strings that differ only in query
string, fragment, or trailing slash, canonicalize_url returns the
identical canonical string and url_md5 of it returns the identical
hash; the canonical string never ends in a slash; and on the example
input the canonical form and its MD5 hex digest are as stated. -/
theorem canonicalize_url_key_property :
    (∀ u1 u2 : String, differOnlyInQueryFragmentOrSlash u1 u2 →
      canonicalize_url u1 = canonicalize_url u2 ∧
      url_md5 (canonicalize_url u1) = url_md5 (canonicalize_url u2)) ∧
    (∀ u : String, (canonicalize_url u).data.getLast? ≠ some '/') ∧
    canonicalize_url "https://example.com/hotel/x?checkin=2024-01-01" =
      "https://example.com/hotel/x" ∧
    url_md5 "https://example.com/hotel/x" =
      "b5eab01c5c9d287969f62f3fb6ddede9" := by
  refine ⟨?_, ?_, by decide, by decide⟩
  · intro u1 u2 h
    have hc := canonicalize_url_congr u1 u2 h
    exact ⟨hc, congrArg url_md5 hc⟩
  · intro u hlast
    have h2 : isSlash '/' = false := rstripSlash_getLast _ '/' hlast
    simp [isSlash] at h2

/-- Witness for C1 at a concrete pair differing in query, fragment and
trailing slash. -/
theorem canonicalize_url_key_property_witness :
    canonicalize_url "https://example.com/hotel/x?checkin=2024-01-01" =
      canonicalize_url "https://example.com/hotel/x/#frag" ∧
    url_md5 (canonicalize_url "https://example.com/hotel/x?checkin=2024-01-01") =
      url_md5 (canonicalize_url "https://example.com/hotel/x/#frag") :=
  canonicalize_url_key_property.1 _ _ (by decide)

/-- C2: the record assembled by the scrape handler stores the canonical
URL in the url field and url_md5 of that same field in url_hash, so two
calls whose input URLs differ only by query, fragment or trailing slash
assemble payloads with identical url and url_hash keys. -/
theorem scrape_payload_upsert_key :
    ∀ (url : String) (resolve : String → String → String) (doc : Doc)
      (env : CalendarEnv) (now : String),
      (scrape url resolve doc env now).payload.url = canonicalize_url url ∧
      (scrape url resolve doc env now).payload.url_hash =
        url_md5 ((scrape url resolve doc env now).payload.url) ∧
      ∀ (u2 : String) (r2 : String → String → String) (d2 : Doc)
        (e2 : CalendarEnv) (n2 : String),
        differOnlyInQueryFragmentOrSlash url u2 →
        (scrape url resolve doc env now).payload.url =
          (scrape u2 r2 d2 e2 n2).payload.url ∧
        (scrape url resolve doc env now).payload.url_hash =
          (scrape u2 r2 d2 e2 n2).payload.url_hash := by
  intro url resolve doc env now
  refine ⟨rfl, ?_, ?_⟩
  · simp only [scrape, scrape_images_and_details]
  · intro u2 r2 d2 e2 n2 h
    have hc := canonicalize_url_congr url u2 h
    constructor
    · simp only [scrape, scrape_images_and_details]
      exact hc
    · simp only [scrape, scrape_images_and_details]
      exact congrArg url_md5 hc

/-- Witness for C2: two concrete scrape calls with URLs differing only
by query or trailing slash assemble the same upsert key. -/
theorem scrape_payload_upsert_key_witness :
    (scrape "https://example.com/hotel/x?checkin=2024-01-01" (fun _ s => s)
        ⟨[], none, []⟩ ⟨Except.ok (), fun _ => Except.ok [], fun _ => false⟩
        "t1").payload.url_hash =
    (scrape "https://example.com/hotel/x/" (fun _ s => s)
        ⟨[], none, []⟩ ⟨Except.ok (), fun _ => Except.ok [], fun _ => false⟩
        "t2").payload.url_hash :=
  ((scrape_payload_upsert_key _ _ _ _ _).2.2 _ _ _ _ _ (by decide)).2

/-- C3 counterexample: on an input URL carrying a query string, the
argument the scrape handler passes to the page fetcher is not the
canonical URL (the handler passes the raw url variable). -/
theorem scrape_fetch_input_not_canonical_example :
    ¬ ((scrape "https://example.com/hotel/x?checkin=2024-01-01" (fun _ s => s)
        ⟨[], none, []⟩ ⟨Except.ok (), fun _ => Except.ok [], fun _ => false⟩
        "t").fetchInput =
      canonicalize_url "https://example.com/hotel/x?checkin=2024-01-01") := by
  decide

/-- C3 amended: the scrape handler normalizes the URL first, but both
extractors receive the original raw URL; only the stored url field (and
hence url_hash) uses the canonical form. -/
theorem scrape_extractor_inputs_raw :
    ∀ (url : String) (resolve : String → String → String) (doc : Doc)
      (env : CalendarEnv) (now : String),
      (scrape url resolve doc env now).fetchInput = url ∧
      (scrape url resolve doc env now).calendarInput = url ∧
      (scrape url resolve doc env now).payload.url = canonicalize_url url :=
  fun _ _ _ _ _ => ⟨rfl, rfl, rfl⟩

/-- C4: a date cell with a missing price element or a price text
containing no digit contributes no entry, and scanning continues with
the remaining cells; a price text of 120 dollars yields the integer
120, and the example page produces exactly the stated map. -/
theorem calendar_cell_no_digits_skipped :
    (∀ (d : PriceDict) (date : String) (rest : List Cell),
        scanCells (⟨date, none⟩ :: rest) d = scanCells rest d) ∧
    (∀ (d : PriceDict) (date t : String) (rest : List Cell),
        keepDigits t = [] →
        scanCells (⟨date, some t⟩ :: rest) d = scanCells rest d) ∧
    processCell ⟨"2024-03-01", some "$120"⟩ = some 120 ∧
    scanCells [⟨"2024-03-01", some "$120"⟩, ⟨"2024-03-02", some ""⟩] [] =
      [("2024-03-01", 120)] := by
  refine ⟨?_, ?_, by decide, by decide⟩
  · intro d date rest
    rfl
  · intro d date t rest h
    have hpc : processCell ⟨date, some t⟩ = none := by
      simp [processCell, h]
    have hstep : scanStep d ⟨date, some t⟩ = d := by
      unfold scanStep
      rw [hpc]
    show scanCells rest (scanStep d ⟨date, some t⟩) = scanCells rest d
    rw [hstep]

/-- Witness for C4 at a concrete digit-free price text. -/
theorem calendar_cell_no_digits_skipped_witness :
    scanCells [⟨"2024-03-02", some "N/A"⟩] [("a", 1)] =
      scanCells [] [("a", 1)] :=
  calendar_cell_no_digits_skipped.2.1 [("a", 1)] "2024-03-02" "N/A" []
    (by decide)

/-- C5: whenever the calendar extraction body returns without raising,
the returned mapping is the accumulated dict sorted ascending by its
date keys, with pairwise distinct keys. -/
theorem calendar_result_sorted_ascending :
    ∀ (env : CalendarEnv) (d : PriceDict), runSequence env = .ok d →
      scrape_calendar_prices env = d ∧
      List.Pairwise (fun a b : String × Nat => keyLe a b ∧ a.1 ≠ b.1) d := by
  intro env d h
  constructor
  · unfold scrape_calendar_prices
    rw [h]
  · unfold runSequence at h
    cases hi : env.init with
    | error e => rw [hi] at h; cases h
    | ok u =>
      rw [hi] at h
      cases hm : runMonths env 0 12 [] with
      | error e => rw [hm] at h; cases h
      | ok d0 =>
        rw [hm] at h
        cases h
        have hnodup0 : (d0.map Prod.fst).Nodup :=
          runMonths_keys_nodup env 12 0 [] d0 (by simp) hm
        have hperm : List.Perm (List.insertionSort keyLe d0) d0 :=
          List.perm_insertionSort keyLe d0
        have hnodup : ((List.insertionSort keyLe d0).map Prod.fst).Nodup :=
          ((hperm.map Prod.fst).nodup_iff).mpr hnodup0
        have hsorted : List.Pairwise keyLe (List.insertionSort keyLe d0) :=
          List.sorted_insertionSort keyLe d0
        have hne : (List.insertionSort keyLe d0).Pairwise
            (fun a b => a.1 ≠ b.1) := List.pairwise_map.mp hnodup
        exact hsorted.and hne

/-- Witness for C5: a one-page scan whose cells arrive out of date
order is returned sorted. -/
theorem calendar_result_sorted_ascending_witness :
    scrape_calendar_prices
        ⟨Except.ok (), fun _ => Except.ok
          [⟨"2024-03-02", some "$5"⟩, ⟨"2024-03-01", some "$3"⟩],
          fun _ => false⟩ =
      [("2024-03-01", 3), ("2024-03-02", 5)] ∧
    List.Pairwise (fun a b : String × Nat => keyLe a b ∧ a.1 ≠ b.1)
      [("2024-03-01", 3), ("2024-03-02", 5)] :=
  calendar_result_sorted_ascending _ _ (by rfl)

/-- C6: when any step of the browser sequence raises, the calendar
extractor returns the empty map instead of propagating, and the scrape
handler still assembles its record with an empty calendar. -/
theorem calendar_swallows_exceptions :
    ∀ (env : CalendarEnv) (e : String), runSequence env = .error e →
      scrape_calendar_prices env = [] ∧
      ∀ (url : String) (resolve : String → String → String) (doc : Doc)
        (now : String),
        (scrape url resolve doc env now).payload.calendar_prices = [] := by
  intro env e h
  have h1 : scrape_calendar_prices env = [] := by
    unfold scrape_calendar_prices
    rw [h]
  refine ⟨h1, ?_⟩
  intro url resolve doc now
  show scrape_calendar_prices env = []
  exact h1

/-- Witness for C6 at an environment whose session creation raises. -/
theorem calendar_swallows_exceptions_witness :
    scrape_calendar_prices ⟨Except.error "Erro Selenium",
      fun _ => Except.ok [], fun _ => true⟩ = [] :=
  (calendar_swallows_exceptions _ "Erro Selenium" (by rfl)).1

/-- C7: the image list is exactly the srcs containing the fixed marker,
resolved against the base URL, de-duplicated by exact string keeping
first occurrences in document order; no matching tag yields the empty
list, and an absent description element yields the empty string. -/
theorem images_filter_resolve_dedup :
    ∀ (resolve : String → String → String) (url : String) (doc : Doc),
      (scrape_images_and_details resolve url doc).1 =
        specImageList resolve url doc.imgSrcs ∧
      (scrape_images_and_details resolve url doc).1.Nodup ∧
      (doc.imgSrcs.filter (fun s => containsSeq hotelImageMarker s.data) = [] →
        (scrape_images_and_details resolve url doc).1 = []) ∧
      (doc.descText = none →
        (scrape_images_and_details resolve url doc).2.1 = "") := by
  intro resolve url doc
  have he : (scrape_images_and_details resolve url doc).1 =
      specImageList resolve url doc.imgSrcs :=
    collectImages_eq_dedup resolve url doc.imgSrcs []
  refine ⟨he, ?_, ?_, ?_⟩
  · rw [he]
    exact dedupAppend_nodup _ [] List.nodup_nil
  · intro hf
    rw [he]
    unfold specImageList
    rw [hf]
    rfl
  · intro hd
    show (match doc.descText with | some t => t.trim | none => "") = ""
    rw [hd]

/-- Witness for C7 at a document with one non-matching image tag and no
description element. -/
theorem images_filter_resolve_dedup_witness :
    (scrape_images_and_details (fun _ s => s) "https://x"
      ⟨["https://cdn/other.png"], none, []⟩).1 = [] ∧
    (scrape_images_and_details (fun _ s => s) "https://x"
      ⟨["https://cdn/other.png"], none, []⟩).2.1 = "" :=
  ⟨(images_filter_resolve_dedup _ _ _).2.2.1 (by decide),
   (images_filter_resolve_dedup _ _ _).2.2.2 rfl⟩

/-- C8: the persistence adapter returns the first stored row when the
upsert response carries data, and yields the internal-error response
exactly when the response carries no data. -/
theorem save_to_supabase_empty_data_500 :
    ∀ (α : Type) (respData : Option (List α)),
      (∀ (row : α) (rows : List α), respData = some (row :: rows) →
        save_to_supabase respData = .ok row) ∧
      (save_to_supabase respData =
          .http 500 "Erro ao salvar no banco: Resposta vazia do Supabase" ↔
        (respData = none ∨ respData = some [])) := by
  intro α respData
  constructor
  · intro row rows hr
    subst hr
    rfl
  · cases respData with
    | none => simp [save_to_supabase]
    | some l =>
      cases l with
      | nil => simp [save_to_supabase]
      | cons r rs => simp [save_to_supabase]

/-- Witness for C8: a one-row response returns that row; an absent data
attribute yields the 500 response. -/
theorem save_to_supabase_empty_data_500_witness :
    save_to_supabase (some [(7 : Nat)]) = PyResult.ok 7 ∧
    save_to_supabase (none : Option (List Nat)) =
      PyResult.http 500 "Erro ao salvar no banco: Resposta vazia do Supabase" :=
  ⟨(save_to_supabase_empty_data_500 Nat (some [7])).1 7 [] rfl,
   (save_to_supabase_empty_data_500 Nat none).2.mpr (Or.inl rfl)⟩

/-- C9: an empty store result makes get_ad fail with the 404 response
(not converted to 500), and a success envelope is only ever returned
with the first matching row as data. -/
theorem get_ad_not_found_404 :
    ∀ (α : Type) (store : Except String (List α)),
      (store = .ok [] → get_ad store = .http 404 "Anúncio não encontrado") ∧
      (∀ envl : AdEnvelope α, get_ad store = .ok envl →
        ∃ row rows, store = .ok (row :: rows) ∧ envl.data = row ∧
          envl.status = "success") := by
  intro α store
  constructor
  · intro h
    subst h
    rfl
  · intro envl h
    cases store with
    | error e => simp [get_ad, get_ad_try] at h
    | ok l =>
      cases l with
      | nil => simp [get_ad, get_ad_try] at h
      | cons r rs =>
        have hval : get_ad (Except.ok (r :: rs)) =
            PyResult.ok ⟨"success", r⟩ := rfl
        rw [hval] at h
        cases h
        exact ⟨r, rs, rfl, rfl, rfl⟩

/-- Witness for C9 at an empty store result. -/
theorem get_ad_not_found_404_witness :
    get_ad (Except.ok ([] : List Nat)) =
      PyResult.http 404 "Anúncio não encontrado" :=
  (get_ad_not_found_404 Nat (Except.ok [])).1 rfl

/-- C10: a date cell whose price text contains digits but parses to
zero is omitted from the map, the truthiness guard rejecting zero like
a missing price. -/
theorem calendar_zero_price_omitted :
    (∀ (d : PriceDict) (date t : String) (rest : List Cell),
        t ≠ "" → keepDigits t ≠ [] → digitsToNat (keepDigits t) = 0 →
        scanCells (⟨date, some t⟩ :: rest) d = scanCells rest d) ∧
    processCell ⟨"2024-03-01", some "$0"⟩ = none ∧
    scanCells [⟨"2024-03-01", some "$0"⟩] [] = [] := by
  refine ⟨?_, by decide, by decide⟩
  intro d date t rest ht hds h0
  have hpc : processCell ⟨date, some t⟩ = none := by
    unfold processCell
    simp only
    rw [if_neg ht, if_neg (by simpa [List.isEmpty_iff] using hds), h0]
    simp
  have hstep : scanStep d ⟨date, some t⟩ = d := by
    unfold scanStep
    rw [hpc]
  show scanCells rest (scanStep d ⟨date, some t⟩) = scanCells rest d
  rw [hstep]

/-- Witness for C10 at the concrete zero-dollar price text. -/
theorem calendar_zero_price_omitted_witness :
    scanCells [⟨"2024-03-05", some "$0"⟩] [("a", 1)] =
      scanCells [] [("a", 1)] :=
  calendar_zero_price_omitted.1 [("a", 1)] "2024-03-05" "$0" []
    (by decide) (by decide) (by decide)

end Booking
